import Mathlib

/-!
# Verification of the BabyAGI-style task-orchestration core

Shallow embedding of `src/task_management/babyagi_agent.py` (class
`BabyAgiAgent`) and `src/task_management/task_scheduler.py` (class
`TaskScheduler`), together with theorems settling the frozen claims
about the priority task queue and the recurring scheduler.

Modelling conventions:
* `uuid.uuid4()` produces a fresh opaque id; we model ids as naturals
  drawn from a counter `nextId` threaded through the agent state
  (uniqueness is the only property the code relies on).
* `time.time()` is modelled as a monotone counter `now` in the agent
  state, bumped each time the code reads the clock; real wall-clock
  time is nondecreasing, the counter is strictly increasing, which is
  the idealisation under which FIFO tie-breaking is stated.
* The external collaborators (`AIModel.generate_response`,
  `SelfLearningAI.retrieve_context` / `store_interaction`) are passed
  in as an environment of fallible functions (`Except String _`
  mirrors Python exceptions carrying `str(e)`).
* Python's `try/except Exception` around the collaborator calls is
  embedded by the explicit `match` on the `Except` results; the fact
  that `executeTask` returns a plain pair (no `Except` in its type) is
  the embedding of "the exception does not escape `execute_task`".
* Mutation of a task dict held by reference is embedded as an update
  of every queue entry carrying the task's id (`updateTask`); ids are
  unique by construction, so exactly one entry is rewritten.
-/

namespace TaskCore

/-- Task lifecycle states used by `babyagi_agent.py`
(`"pending"`, `"in_progress"`, `"completed"`, `"failed"`). -/
inductive Status where
  | pending
  | in_progress
  | completed
  | failed
deriving DecidableEq, Repr

/-- One task dict as built by `BabyAgiAgent.add_task`. -/
structure Task where
  id : Nat
  objective : String
  type : String
  priority : Int
  status : Status
  created_at : Nat
  completed_at : Option Nat
  result : Option String
deriving DecidableEq, Repr

/-- One history dict as appended by `BabyAgiAgent.execute_task`
on the success path. -/
structure HistoryEntry where
  task_id : Nat
  objective : String
  result : String
  completed_at : Nat
deriving DecidableEq, Repr

/-- The dict returned by `BabyAgiAgent.execute_task`: keys that a
given return site omits are modelled as `none`. -/
structure ExecResult where
  success : Bool
  task_id : Option Nat
  result : Option String
  error : Option String
deriving DecidableEq, Repr

/-- External collaborators of the agent.  Each call may raise, which
Python surfaces as an exception message `str(e)`. -/
structure Env where
  retrieve_context : String → Except String String
  generate_response : String → Except String String
  store_interaction : String → String → Except String Unit

/-- The mutable state of a `BabyAgiAgent`: `task_queue`, `history`
and `is_running` are fields of the Python object; `nextId` models the
uuid source and `now` models the wall clock (see the module header). -/
structure Agent where
  task_queue : List Task
  history : List HistoryEntry
  is_running : Bool
  nextId : Nat
  now : Nat
deriving DecidableEq, Repr

/-- `BabyAgiAgent.__init__`: empty queue, empty history, not running. -/
def Agent.init : Agent :=
  { task_queue := [], history := [], is_running := false, nextId := 0, now := 0 }

/-- `BabyAgiAgent.add_task(objective, task_type="general", priority=1)`:
unconditionally appends a fresh `pending` task and returns its id.
The source performs no validation of `objective`. -/
def addTask (a : Agent) (objective task_type : String) (priority : Int) :
    Agent × Nat :=
  let task_id := a.nextId
  let task : Task :=
    { id := task_id
      objective := objective
      type := task_type
      priority := priority
      status := Status.pending
      created_at := a.now
      completed_at := none
      result := none }
  ({ a with
      task_queue := a.task_queue ++ [task]
      nextId := a.nextId + 1
      now := a.now + 1 },
   task_id)

/-- Stable insertion step for sorting by `priority` in descending
order: an element passes over earlier-queued elements only when those
have strictly greater priority, so equal-priority elements keep their
original relative order — exactly the stability guarantee of Python's
`list.sort(key=lambda x: x["priority"], reverse=True)`. -/
def insertDesc (t : Task) : List Task → List Task
  | [] => [t]
  | u :: us => if u.priority > t.priority then u :: insertDesc t us else t :: u :: us

/-- Stable sort by priority, descending (Python `list.sort` with
`key=priority, reverse=True`). -/
def sortDesc : List Task → List Task
  | [] => []
  | t :: ts => insertDesc t (sortDesc ts)

/-- The task-selection step at the top of `execute_task`:
with a `task_id`, the first queue entry with that id that is still
`pending`; without one, `pending_tasks[0]` after the descending
stable sort of all pending tasks. -/
def selectTask (a : Agent) (task_id : Option Nat) : Option Task :=
  match task_id with
  | some tid =>
      a.task_queue.find? (fun t => t.id == tid && t.status == Status.pending)
  | none =>
      (sortDesc (a.task_queue.filter (fun t => t.status == Status.pending))).head?

/-- In-place mutation of the task dict with id `tid` (the queue holds
a reference to the same dict, so rewriting the entry by id is the
list-level image of the Python mutation; ids are unique). -/
def updateTask (l : List Task) (tid : Nat) (f : Task → Task) : List Task :=
  l.map (fun u => if u.id == tid then f u else u)

/-- The prompt built inside `execute_task` before calling the
generator; the context section is present only when the retrieved
context string is truthy (non-empty). -/
def promptFor (objective context : String) : String :=
  "Task: " ++ objective ++ "\n\n"
    ++ (if context ≠ "" then "Context:\n" ++ context ++ "\n\n" else "")
    ++ "Execute this task and provide a detailed response."

/-- The `try:` block of `execute_task`, entered with the claimed task
`t` already marked `in_progress` inside `a`.  On success: task →
`completed`, `completed_at` stamped, `result` set, one history entry
appended.  On any exception from the three collaborator calls: task →
`failed`, `result` set to `"Error: " ++ e`, nothing else touched, and
the error is returned as data, not rethrown. -/
def tryExecute (env : Env) (a : Agent) (t : Task) : Agent × ExecResult :=
  let fail := fun (e : String) =>
    ({ a with
        task_queue := updateTask a.task_queue t.id
          (fun u => { u with status := Status.failed, result := some ("Error: " ++ e) }) },
     { success := false, task_id := some t.id, result := none, error := some e })
  match env.retrieve_context t.objective with
  | Except.error e => fail e
  | Except.ok context =>
    let prompt := promptFor t.objective context
    match env.generate_response prompt with
    | Except.error e => fail e
    | Except.ok response =>
      match env.store_interaction prompt response with
      | Except.error e => fail e
      | Except.ok _ =>
        ({ a with
            task_queue := updateTask a.task_queue t.id
              (fun u => { u with
                  status := Status.completed
                  completed_at := some a.now
                  result := some response })
            history := a.history ++
              [{ task_id := t.id, objective := t.objective
                 result := response, completed_at := a.now }]
            now := a.now + 1 },
         { success := true, task_id := some t.id, result := some response, error := none })

/-- `BabyAgiAgent.execute_task(task_id=None)`. -/
def executeTask (env : Env) (a : Agent) (task_id : Option Nat) : Agent × ExecResult :=
  match selectTask a task_id with
  | none =>
      (a, { success := false, task_id := none, result := none
            error := some (match task_id with
              | some _ => "Task not found or not pending"
              | none => "No pending tasks") })
  | some t =>
      let a1 : Agent :=
        { a with
            task_queue := updateTask a.task_queue t.id
              (fun u => { u with status := Status.in_progress }) }
      tryExecute env a1 t

/-- `self.history[-5:]`: the last at-most-five history entries. -/
def lastN (n : Nat) (l : List HistoryEntry) : List HistoryEntry :=
  l.drop (l.length - n)

/-- The meta-prompt built by `refine_tasks` from the last five
history entries. -/
def refinePrompt (history : List HistoryEntry) : String :=
  let history_text := String.intercalate "\n\n"
    ((lastN 5 history).map (fun h => "Task: " ++ h.objective ++ "\nResult: " ++ h.result))
  "Based on these previously completed tasks:\n\n"
    ++ history_text
    ++ "\n\nGenerate three new tasks that would be valuable to execute next. Consider dependencies, logical next steps, and potential optimizations.\nFormat each task as a separate paragraph with a clear objective.\n"

/-- The enqueue loop of `refine_tasks`: for each paragraph, if its
stripped form is truthy, `add_task(paragraph.strip(), priority=2)`. -/
def addSegments (st : Agent × List Nat) : List String → Agent × List Nat
  | [] => st
  | p :: ps =>
      if p.trim ≠ "" then
        let r := addTask st.1 p.trim "general" 2
        addSegments (r.1, st.2 ++ [r.2]) ps
      else
        addSegments st ps

/-- `BabyAgiAgent.refine_tasks()`.  The generator call is not guarded
by a `try`, so its exception propagates to the caller (`Except.error`). -/
def refineTasks (env : Env) (a : Agent) : Except String (Agent × List Nat) :=
  if a.history = [] then Except.ok (a, [])
  else
    match env.generate_response (refinePrompt a.history) with
    | Except.error e => Except.error e
    | Except.ok response =>
        Except.ok (addSegments (a, []) (response.splitOn "\n\n"))

/-- Observable events of one `run` invocation: each `execute_task`
call, each `refine_tasks` call (with the ids it returned), and each
`time.sleep(interval)` between iterations. -/
inductive Event where
  | execEv (r : ExecResult)
  | refineEv (ids : List Nat)
  | sleepEv (interval : Nat)
deriving DecidableEq, Repr

/-- The body of `run`'s `for i in range(iterations)` loop, given the
list of remaining loop indices.  Each iteration unconditionally calls
`execute_task()`; when `i > 0 and i % 2 == 0` it calls
`refine_tasks()` (whose exception aborts the loop and propagates);
when `i < iterations - 1` it sleeps.  The loop condition never reads
`is_running`. -/
def runLoop (env : Env) (iterations interval : Nat) :
    List Nat → Agent → List ExecResult → List Event →
    Agent × Except String (List ExecResult) × List Event
  | [], a, results, trace => (a, Except.ok results, trace)
  | i :: rest, a, results, trace =>
      let p := executeTask env a none
      let results1 := results ++ [p.2]
      let trace1 := trace ++ [Event.execEv p.2]
      if i > 0 ∧ i % 2 = 0 then
        match refineTasks env p.1 with
        | Except.error e => (p.1, Except.error e, trace1)
        | Except.ok q =>
            let trace2 := trace1 ++ [Event.refineEv q.2]
            if i < iterations - 1 then
              runLoop env iterations interval rest q.1 results1
                (trace2 ++ [Event.sleepEv interval])
            else
              runLoop env iterations interval rest q.1 results1 trace2
      else
        if i < iterations - 1 then
          runLoop env iterations interval rest p.1 results1
            (trace1 ++ [Event.sleepEv interval])
        else
          runLoop env iterations interval rest p.1 results1 trace1

/-- `BabyAgiAgent.run(iterations, interval)`.  If `is_running` is
already set the call only logs a warning and returns `[]`.  Otherwise
the flag is raised, the loop runs, and the `finally:` clause clears
the flag on every exit path, normal or exceptional. -/
def run (env : Env) (a : Agent) (iterations interval : Nat) :
    Agent × Except String (List ExecResult) × List Event :=
  if a.is_running then (a, Except.ok [], [])
  else
    let r := runLoop env iterations interval (List.range iterations)
      { a with is_running := true } [] []
    ({ r.1 with is_running := false }, r.2.1, r.2.2)

/-- `BabyAgiAgent.stop()`: returns `False` when not running,
otherwise clears `is_running` and returns `True`.  It does nothing
else — in particular it does not interact with any loop. -/
def stopAgent (a : Agent) : Agent × Bool :=
  if a.is_running = false then (a, false)
  else ({ a with is_running := false }, true)

/-! ## The recurring scheduler (`task_scheduler.py`) -/

/-- One entry of `TaskScheduler.tasks` as appended by its `add_task`:
just the callable (an opaque handle), the interval, and a name.
Python is dynamically typed, so the interval slot can hold any value
including `None`; we model the value space the call sites use as
`Option Nat`.  There is no `schedule`, `next_run`, `last_run`,
`run_count` or `enabled` field in the source. -/
structure SchedTask where
  fn : Nat
  interval : Option Nat
  name : String
deriving DecidableEq, Repr

/-- `TaskScheduler` state; `loopThreads` counts the `_run_tasks`
dispatch threads spawned by `start()` (each call spawns one,
unconditionally). -/
structure Scheduler where
  tasks : List SchedTask
  running : Bool
  loopThreads : Nat
deriving DecidableEq, Repr

/-- `TaskScheduler.__init__`. -/
def Scheduler.init : Scheduler :=
  { tasks := [], running := false, loopThreads := 0 }

/-- `TaskScheduler.add_task(task_function, interval, task_name)`:
appends unconditionally; there is no validation and no error path,
and no `schedule` parameter exists. -/
def schedAddTask (s : Scheduler) (fn : Nat) (interval : Option Nat)
    (name : String) : Scheduler :=
  { s with tasks := s.tasks ++ [{ fn := fn, interval := interval, name := name }] }

/-- `TaskScheduler.start()`: sets `running` and spawns a fresh
`_run_tasks` dispatch thread.  There is no already-running check. -/
def schedStart (s : Scheduler) : Scheduler :=
  { s with running := true, loopThreads := s.loopThreads + 1 }

/-- `TaskScheduler.stop()`: clears `running`. -/
def schedStop (s : Scheduler) : Scheduler :=
  { s with running := false }

/-!
Discrete-time model of the scheduler's dispatch behaviour, for a
scheduler started at tick 0 that stays `running` through tick `t`,
with one registered task of interval `n`.  Loop bodies take no time;
only the `time.sleep` calls advance the clock — the same idealisation
("±1 tick") under which the timing claims are stated.

* `_run_tasks` wakes at every tick `j = 0, 1, 2, ...` and spawns a
  **new** `_execute_task` thread for every registered task.
* an `_execute_task` thread spawned at tick `j` runs
  `while running: fire; sleep(interval)`, i.e. it fires at ticks
  `j, j + n, j + 2n, ...` — the first fire is immediate.
-/

/-- Whether the executor thread spawned at tick `j` fires the task of
interval `n` at tick `t`. -/
def executorFires (n j t : Nat) : Bool :=
  j ≤ t && (t - j) % n = 0

/-- Number of firings of the interval-`n` task at tick `t`: one
executor thread was spawned at each tick `0, ..., t`, and each fires
whenever its own period comes around. -/
def fireCount (n t : Nat) : Nat :=
  ((List.range (t + 1)).filter (fun j => executorFires n j t)).length

/-! ## Trace observations -/

/-- Number of `execute_task` invocations recorded in a trace. -/
def countExec (tr : List Event) : Nat :=
  tr.countP (fun ev => match ev with | Event.execEv _ => true | _ => false)

/-- Number of `refine_tasks` invocations recorded in a trace. -/
def countRefine (tr : List Event) : Nat :=
  tr.countP (fun ev => match ev with | Event.refineEv _ => true | _ => false)

/-- Number of `time.sleep(interval)` calls recorded in a trace. -/
def countSleep (tr : List Event) : Nat :=
  tr.countP (fun ev => match ev with | Event.sleepEv _ => true | _ => false)

/-! ## Concrete fixtures used to evaluate the model -/

/-- An environment whose collaborators all succeed. -/
def envOk : Env :=
  { retrieve_context := fun _ => Except.ok ""
    generate_response := fun _ => Except.ok "done"
    store_interaction := fun _ _ => Except.ok () }

/-- An environment whose generator raises (`str(e) = "boom"`). -/
def envFail : Env :=
  { retrieve_context := fun _ => Except.ok ""
    generate_response := fun _ => Except.error "boom"
    store_interaction := fun _ _ => Except.ok () }

/-- A fresh agent after `add_task("A", priority=1)` and
`add_task("B", priority=5)`. -/
def agAB : Agent :=
  (addTask (addTask Agent.init "A" "general" 1).1 "B" "general" 5).1

/-- A fresh agent holding three pending tasks. -/
def agMany : Agent :=
  (addTask (addTask (addTask Agent.init "T1" "general" 1).1
    "T2" "general" 1).1 "T3" "general" 1).1

/-- An environment whose generator proposes two refined tasks
separated by blank lines (the middle segment is whitespace only and
is dropped by `strip()`). -/
def envSeg : Env :=
  { retrieve_context := fun _ => Except.ok ""
    generate_response := fun _ => Except.ok "One\n\n \n\nTwo"
    store_interaction := fun _ _ => Except.ok () }

/-- `agAB` after one successful execution (history holds one entry). -/
def agDone : Agent :=
  (executeTask envOk agAB none).1

/-- The task record created for objective `"B"` inside `agAB`. -/
def taskB : Task :=
  { id := 1, objective := "B", type := "general", priority := 5,
    status := Status.pending, created_at := 1, completed_at := none, result := none }

/-- The agent state reached inside `run envOk agMany 2 2` after
iteration 0 (the loop body has executed once; indices `[1]` remain). -/
def aMid : Agent :=
  (executeTask envOk { agMany with is_running := true } none).1

/-- `aMid` after a concurrent `stop()` call between iterations. -/
def aStopped : Agent :=
  (stopAgent aMid).1

/-- Proof artifact: the first element of maximal priority in a list.
`pickMax l` equals `(sortDesc l).head?` (lemma `sortDesc_head_eq`),
i.e. the element Python's stable descending sort puts first. -/
def pickMax : List Task → Option Task
  | [] => none
  | t :: ts =>
      match pickMax ts with
      | none => some t
      | some u => some (if u.priority > t.priority then u else t)

/-- Proof artifact: the tasks `refine_tasks` appends for the stripped
non-empty segments `segs`, when the agent's id counter starts at `i`
and its clock at `w`. -/
def buildTasks : Nat → Nat → List String → List Task
  | _, _, [] => []
  | i, w, s :: ss =>
      { id := i, objective := s, type := "general", priority := 2,
        status := Status.pending, created_at := w,
        completed_at := none, result := none } :: buildTasks (i + 1) (w + 1) ss

end TaskCore

namespace TaskCore

/-! ## Claim C2 — scheduler firing cadence -/

/-- Claim C2 counterexample: the claim says a task registered with
interval 5 at `t0` first fires at about `t0 + 5` (within one tick)
and consecutive firings are spaced about 5 seconds apart, forming one
period-5 sequence.  In the code's discrete-time model the task
already fires at tick 0 (each `_execute_task` thread fires before it
first sleeps), fires again at tick 1 (because `_run_tasks` spawns a
fresh executor thread at every tick), and fires twice simultaneously
at tick 6 — so there is no single period-5 firing sequence. -/
theorem scheduler_interval5_fires_at_tick0 :
    fireCount 5 0 = 1 ∧ fireCount 5 1 = 1 ∧ fireCount 5 6 = 2 := by
  decide

/-- Claim C2 (amended): while the scheduler is running, `_run_tasks`
spawns a new `_execute_task` thread for every registered task at
every 1-second tick, and each of those threads fires the task
immediately and then every `n` seconds; consequently an interval-`n`
task fires at every tick from the start (at tick `t` it fires once
for every spawn tick `j ≤ t` with `(t - j) % n = 0`), rather than
having a single firing sequence with first firing at `t0 + n` and
period `n`. -/
theorem scheduler_task_fires_every_tick :
    (∀ n t : Nat, 0 < n → 0 < fireCount n t) ∧ fireCount 5 5 = 2 := by
  constructor
  · intro n t _
    have hmem : t ∈ (List.range (t + 1)).filter (fun j => executorFires n j t) := by
      refine List.mem_filter.mpr ⟨List.mem_range.mpr (Nat.lt_succ_self t), ?_⟩
      simp [executorFires]
    simpa [fireCount] using List.length_pos_of_mem hmem
  · decide

/-- Witness for the amended C2 theorem at `n = 5`, `t = 3`. -/
theorem scheduler_task_fires_every_tick_witness :
    (0 : Nat) < 5 ∧ 0 < fireCount 5 3 :=
  ⟨by decide, scheduler_task_fires_every_tick.1 5 3 (by decide)⟩

/-! ## Claim C6 — empty objective is not rejected -/

/-- Claim C6 counterexample: the claim says `add_task` with an empty
objective fails with `InvalidInput` and appends nothing.  The code
performs no validation: `add_task("")` on a fresh agent appends one
task whose objective is the empty string and returns its id. -/
theorem addTask_accepts_empty_objective :
    (addTask Agent.init "" "general" 1).1.task_queue.map
        (fun t => (t.objective, t.status)) = [("", Status.pending)] ∧
    (addTask Agent.init "" "general" 1).2 = 0 := by
  decide

/-- Claim C6 (amended): `add_task` performs no validation of
`objective` at all — every call, including one with an empty
objective, synchronously appends exactly one new `pending` task built
from its arguments and returns that task's fresh id (an id not borne
by any existing task, given the invariant that existing ids are below
the id counter).  There is no `InvalidInput` rejection path. -/
theorem addTask_appends_unconditionally (a : Agent) (obj ty : String) (pr : Int)
    (hids : ∀ u ∈ a.task_queue, u.id < a.nextId) :
    (addTask a obj ty pr).1.task_queue = a.task_queue ++
      [{ id := a.nextId, objective := obj, type := ty, priority := pr,
         status := Status.pending, created_at := a.now,
         completed_at := none, result := none }] ∧
    (addTask a obj ty pr).2 = a.nextId ∧
    (addTask a obj ty pr).2 ∉ a.task_queue.map Task.id := by
  refine ⟨rfl, rfl, ?_⟩
  intro hmem
  rcases List.mem_map.mp hmem with ⟨u, hu, hid⟩
  exact absurd (hid ▸ hids u hu) (lt_irrefl _)

/-- Witness for the amended C6 theorem on the fixture `agAB`. -/
theorem addTask_appends_unconditionally_witness :
    (∀ u ∈ agAB.task_queue, u.id < agAB.nextId) ∧
    (addTask agAB "" "general" 1).2 ∉ agAB.task_queue.map Task.id :=
  ⟨by decide, (addTask_appends_unconditionally agAB "" "general" 1 (by decide)).2.2⟩

/-! ## Claim C9 — single-flight guards -/

/-- Claim C9 counterexample: the claim says a re-entrant `start()` on
the scheduler is rejected with an `AlreadyRunning` outcome without
starting a second interleaved loop.  `TaskScheduler.start` has no
already-running check: a second call spawns a second `_run_tasks`
dispatch thread (and returns nothing either time). -/
theorem schedStart_spawns_second_loop :
    (schedStart (schedStart Scheduler.init)).loopThreads = 2 ∧
    (schedStart Scheduler.init).running = true := by
  decide

/-- Claim C9 (amended): the queue's `run` is single-flight — a call
while `is_running` is set returns immediately with `[]`, no state
change and no loop events — and whenever `run` actually starts, the
`finally:` clause clears `is_running` on every exit path, normal or
exceptional.  The scheduler's `start`, by contrast, performs no
already-running check: every call sets `running` and spawns one more
dispatch-loop thread. -/
theorem run_single_flight_and_start_unguarded
    (env : Env) (a : Agent) (n k : Nat) :
    (a.is_running = true → run env a n k = (a, Except.ok [], [])) ∧
    (a.is_running = false → (run env a n k).1.is_running = false) ∧
    (∀ s : Scheduler, (schedStart s).running = true ∧
      (schedStart s).loopThreads = s.loopThreads + 1) := by
  refine ⟨fun h => by simp [run, h], fun h => by simp [run, h], fun s => ⟨rfl, rfl⟩⟩

/-- Witness for the amended C9 theorem: a second `run` on a running
agent is rejected, and a completed `run` leaves the flag cleared. -/
theorem run_single_flight_witness :
    run envOk { Agent.init with is_running := true } 1 1 =
      ({ Agent.init with is_running := true }, Except.ok [], []) ∧
    (run envOk agAB 1 1).1.is_running = false :=
  ⟨(run_single_flight_and_start_unguarded envOk
      { Agent.init with is_running := true } 1 1).1 rfl,
   (run_single_flight_and_start_unguarded envOk agAB 1 1).2.1 rfl⟩

/-! ## Claim C10 — scheduler add_task accepts everything -/

/-- Claim C10 counterexample: the claim says `add_task` requires
exactly one of `interval`/`schedule` and rejects other combinations
with `InvalidInput`, parses `"HH:MM"` schedules into `next_run`, and
falls back to one hour from now on a malformed schedule.  The code's
`add_task(task_function, interval, task_name)` has no `schedule`
parameter and no validation: a call carrying no usable interval at
all (Python would accept `interval=None`) still appends one task and
reports no error. -/
theorem schedAddTask_accepts_missing_interval :
    (schedAddTask Scheduler.init 0 none "Unnamed Task").tasks =
      [{ fn := 0, interval := none, name := "Unnamed Task" }] := by
  decide

/-- Claim C10 (amended): the scheduler's `add_task` takes a callable,
an interval and a name; there is no `schedule` parameter, no
validation and no error path — every call appends exactly one task
record holding just those three values and changes nothing else; no
`next_run` is computed and no `"HH:MM"` parsing or fallback exists in
the code. -/
theorem schedAddTask_always_appends (s : Scheduler) (fn : Nat)
    (interval : Option Nat) (name : String) :
    (schedAddTask s fn interval name).tasks =
      s.tasks ++ [{ fn := fn, interval := interval, name := name }] ∧
    (schedAddTask s fn interval name).running = s.running ∧
    (schedAddTask s fn interval name).loopThreads = s.loopThreads :=
  ⟨rfl, rfl, rfl⟩

/-! ## Selection lemmas for claim C1 -/

theorem pickMax_cons_isSome (t : Task) (ts : List Task) :
    ∃ u, pickMax (t :: ts) = some u := by
  cases h : pickMax ts with
  | none => exact ⟨t, by simp [pickMax, h]⟩
  | some v => exact ⟨if v.priority > t.priority then v else t, by simp [pickMax, h]⟩

theorem pickMax_mem : ∀ {l : List Task} {t : Task}, pickMax l = some t → t ∈ l := by
  intro l
  induction l with
  | nil => intro t h; simp [pickMax] at h
  | cons x ts ih =>
      intro t h
      cases hp : pickMax ts with
      | none =>
          simp [pickMax, hp] at h
          simp [h]
      | some v =>
          simp [pickMax, hp] at h
          by_cases hgt : v.priority > x.priority
          · rw [if_pos hgt] at h
            exact h ▸ List.mem_cons_of_mem x (ih hp)
          · rw [if_neg hgt] at h
            simp [h]

theorem pickMax_max : ∀ {l : List Task} {t : Task}, pickMax l = some t →
    ∀ u ∈ l, u.priority ≤ t.priority := by
  intro l
  induction l with
  | nil => intro t h; simp [pickMax] at h
  | cons x ts ih =>
      intro t h u hu
      cases hp : pickMax ts with
      | none =>
          cases ts with
          | nil =>
              simp [pickMax] at h
              rcases List.mem_singleton.mp hu with rfl
              simp [h]
          | cons y ys =>
              rcases pickMax_cons_isSome y ys with ⟨w, hw⟩
              rw [hw] at hp; cases hp
      | some v =>
          simp [pickMax, hp] at h
          rcases List.mem_cons.mp hu with rfl | hu
          · by_cases hgt : v.priority > u.priority
            · rw [if_pos hgt] at h; exact h ▸ le_of_lt hgt
            · rw [if_neg hgt] at h; exact h ▸ le_refl _
          · by_cases hgt : v.priority > x.priority
            · rw [if_pos hgt] at h; exact h ▸ ih hp u hu
            · rw [if_neg hgt] at h
              exact h ▸ (ih hp u hu).trans (not_lt.mp hgt)

theorem pickMax_first : ∀ {l : List Task} {t : Task}, pickMax l = some t →
    ∃ l1 l2, l = l1 ++ t :: l2 ∧ ∀ u ∈ l1, u.priority < t.priority := by
  intro l
  induction l with
  | nil => intro t h; simp [pickMax] at h
  | cons x ts ih =>
      intro t h
      cases hp : pickMax ts with
      | none =>
          simp [pickMax, hp] at h
          exact ⟨[], ts, by simp [h], by simp⟩
      | some v =>
          simp [pickMax, hp] at h
          by_cases hgt : v.priority > x.priority
          · rw [if_pos hgt] at h
            subst h
            rcases ih hp with ⟨l1, l2, heq, hlt⟩
            refine ⟨x :: l1, l2, by simp [heq], ?_⟩
            intro u hu
            rcases List.mem_cons.mp hu with rfl | hu
            · exact hgt
            · exact hlt u hu
          · rw [if_neg hgt] at h
            exact ⟨[], ts, by simp [h], by simp⟩

theorem insertDesc_head (t : Task) (s : List Task) :
    (insertDesc t s).head? = some (match s.head? with
      | none => t
      | some u => if u.priority > t.priority then u else t) := by
  cases s with
  | nil => rfl
  | cons u us =>
      by_cases hgt : u.priority > t.priority
      · simp [insertDesc, hgt]
      · simp [insertDesc, hgt]

theorem sortDesc_head_eq : ∀ l : List Task, (sortDesc l).head? = pickMax l := by
  intro l
  induction l with
  | nil => rfl
  | cons t ts ih =>
      rw [show sortDesc (t :: ts) = insertDesc t (sortDesc ts) from rfl,
        insertDesc_head, ih]
      cases hp : pickMax ts with
      | none => simp [pickMax, hp]
      | some v => simp [pickMax, hp]

theorem mem_updateTask_of_ne {l : List Task} {tid : Nat} {f : Task → Task}
    {u : Task} (hu : u ∈ l) (hne : u.id ≠ tid) : u ∈ updateTask l tid f := by
  unfold updateTask
  have h := List.mem_map_of_mem (fun v => if v.id == tid then f v else v) hu
  simpa [hne] using h

theorem executeTask_claims_frame (env : Env) (a : Agent) (tid? : Option Nat)
    (t : Task) (hsel : selectTask a tid? = some t) :
    (executeTask env a tid?).2.task_id = some t.id ∧
    ∀ u ∈ a.task_queue, u.id ≠ t.id → u ∈ (executeTask env a tid?).1.task_queue := by
  have hbody : ∀ (a1 : Agent), a1.task_queue = updateTask a.task_queue t.id
        (fun u => { u with status := Status.in_progress }) →
      (tryExecute env a1 t).2.task_id = some t.id ∧
      ∀ u ∈ a.task_queue, u.id ≠ t.id → u ∈ (tryExecute env a1 t).1.task_queue := by
    intro a1 hq
    rcases hr : env.retrieve_context t.objective with e | c
    · refine ⟨by simp [tryExecute, hr], fun u hu hne => ?_⟩
      simp only [tryExecute, hr]
      exact mem_updateTask_of_ne (hq ▸ mem_updateTask_of_ne hu hne) hne
    · rcases hg : env.generate_response (promptFor t.objective c) with e | r
      · refine ⟨by simp [tryExecute, hr, hg], fun u hu hne => ?_⟩
        simp only [tryExecute, hr, hg]
        exact mem_updateTask_of_ne (hq ▸ mem_updateTask_of_ne hu hne) hne
      · rcases hs : env.store_interaction (promptFor t.objective c) r with e | x
        · refine ⟨by simp [tryExecute, hr, hg, hs], fun u hu hne => ?_⟩
          simp only [tryExecute, hr, hg, hs]
          exact mem_updateTask_of_ne (hq ▸ mem_updateTask_of_ne hu hne) hne
        · refine ⟨by simp [tryExecute, hr, hg, hs], fun u hu hne => ?_⟩
          simp only [tryExecute, hr, hg, hs]
          exact mem_updateTask_of_ne (hq ▸ mem_updateTask_of_ne hu hne) hne
  simp only [executeTask, hsel]
  exact hbody _ rfl

/-- Claim C1: `execute()` called without a `task_id` claims, among
all tasks with status `pending`, one with the maximum priority, and
among equal-priority pending tasks one whose `created_at` is minimal
(stable FIFO, under the clock-monotonicity invariant that queue order
respects creation time); the execution then targets exactly that task
and leaves every other task's queue entry untouched. -/
theorem execute_selects_max_priority_fifo
    (a : Agent) (t : Task)
    (hmono : a.task_queue.Pairwise (fun u v => u.created_at ≤ v.created_at))
    (hsel : selectTask a none = some t) :
    t ∈ a.task_queue ∧ t.status = Status.pending ∧
    (∀ u ∈ a.task_queue, u.status = Status.pending → u.priority ≤ t.priority) ∧
    (∀ u ∈ a.task_queue, u.status = Status.pending → u.priority = t.priority →
        t.created_at ≤ u.created_at) ∧
    (∀ env : Env, (executeTask env a none).2.task_id = some t.id ∧
      ∀ u ∈ a.task_queue, u.id ≠ t.id → u ∈ (executeTask env a none).1.task_queue) := by
  have hpick : pickMax (a.task_queue.filter
      (fun u => u.status == Status.pending)) = some t := by
    rw [← sortDesc_head_eq]
    exact hsel
  have htmem : t ∈ a.task_queue.filter (fun u => u.status == Status.pending) :=
    pickMax_mem hpick
  have htq : t ∈ a.task_queue := (List.mem_filter.mp htmem).1
  have htst : t.status = Status.pending := by
    have := (List.mem_filter.mp htmem).2
    simpa using this
  have hmax : ∀ u ∈ a.task_queue, u.status = Status.pending →
      u.priority ≤ t.priority := by
    intro u hu hst
    exact pickMax_max hpick u (List.mem_filter.mpr ⟨hu, by simp [hst]⟩)
  refine ⟨htq, htst, hmax, ?_, fun env => executeTask_claims_frame env a none t hsel⟩
  rcases pickMax_first hpick with ⟨l1, l2, heq, hlt⟩
  have hpair : (a.task_queue.filter
      (fun u => u.status == Status.pending)).Pairwise
      (fun u v => u.created_at ≤ v.created_at) := hmono.filter _
  intro u hu hst hpr
  have humem : u ∈ a.task_queue.filter (fun v => v.status == Status.pending) :=
    List.mem_filter.mpr ⟨hu, by simp [hst]⟩
  rw [heq] at humem hpair
  rcases List.mem_append.mp humem with h1 | h2
  · exact absurd hpr (by have := hlt u h1; omega)
  · rcases List.mem_cons.mp h2 with rfl | h2
    · exact le_refl _
    · exact (List.pairwise_cons.mp (List.pairwise_append.mp hpair).2.1).1 u h2

/-- Witness for C1 on the fixture `agAB` (task A at priority 1, task
B at priority 5): `execute()` claims B and completes it while A is
still pending. -/
theorem execute_selects_max_priority_fifo_witness :
    agAB.task_queue.Pairwise (fun u v => u.created_at ≤ v.created_at) ∧
    selectTask agAB none = some taskB ∧
    (executeTask envOk agAB none).2.task_id = some taskB.id ∧
    (executeTask envOk agAB none).1.task_queue.map (fun u => (u.id, u.status)) =
      [(0, Status.pending), (1, Status.completed)] :=
  ⟨by decide, by decide,
   ((execute_selects_max_priority_fifo agAB taskB (by decide) (by decide)).2.2.2.2
      envOk).1,
   by decide⟩

/-! ## Update-tracking lemmas for claims C3 and C4 -/

theorem mem_updateTask_elim {l : List Task} {tid : Nat} {f : Task → Task}
    {u : Task} (hu : u ∈ updateTask l tid f) :
    ∃ v ∈ l, u = if v.id == tid then f v else v := by
  unfold updateTask at hu
  rcases List.mem_map.mp hu with ⟨v, hv, he⟩
  exact ⟨v, hv, he.symm⟩

theorem double_update_matched
    {l : List Task} {tid : Nat} {f g : Task → Task} :
    ∀ u ∈ updateTask (updateTask l tid f) tid g, u.id = tid →
      ∃ w ∈ l, w.id = tid ∧ u = g (f w) := by
  intro u hu hid
  rcases mem_updateTask_elim hu with ⟨v, hv, he⟩
  by_cases h1 : v.id = tid
  · rcases mem_updateTask_elim hv with ⟨w, hw, he2⟩
    by_cases h2 : w.id = tid
    · refine ⟨w, hw, h2, ?_⟩
      rw [he, if_pos (by simp [h1]), he2, if_pos (by simp [h2])]
    · rw [he2, if_neg (by simp [h2])] at h1
      exact absurd h1 h2
  · rw [he, if_neg (by simp [h1])] at hid
    exact absurd hid h1

/-- Claim C3: for every claimed task, if the context retrieval, the
generator call or the interaction storage raises an error `e`,
`execute_task` transitions the task to `failed` with `"Error: " ++ e`
captured in its `result` field, leaves the history untouched, and
returns the failure as an ordinary result value
(`success = false`, `error = some e`) to its caller; the exception
does not escape `execute_task` (its return type carries no
exception). -/
theorem execute_failure_is_captured
    (env : Env) (a : Agent) (tid? : Option Nat) (t : Task) (e : String)
    (hsel : selectTask a tid? = some t)
    (hfail : env.retrieve_context t.objective = Except.error e ∨
      (∃ c, env.retrieve_context t.objective = Except.ok c ∧
        env.generate_response (promptFor t.objective c) = Except.error e) ∨
      (∃ c r, env.retrieve_context t.objective = Except.ok c ∧
        env.generate_response (promptFor t.objective c) = Except.ok r ∧
        env.store_interaction (promptFor t.objective c) r = Except.error e)) :
    (executeTask env a tid?).2 =
      { success := false, task_id := some t.id, result := none, error := some e } ∧
    (∀ u ∈ (executeTask env a tid?).1.task_queue, u.id = t.id →
      u.status = Status.failed ∧ u.result = some ("Error: " ++ e)) ∧
    (executeTask env a tid?).1.history = a.history := by
  simp only [executeTask, hsel]
  rcases hfail with hr | ⟨c, hr, hg⟩ | ⟨c, r, hr, hg, hs⟩
  · refine ⟨by simp [tryExecute, hr], ?_, by simp [tryExecute, hr]⟩
    simp only [tryExecute, hr]
    intro u hu hid
    rcases double_update_matched u hu hid with ⟨w, hw, hwid, he⟩
    exact ⟨by rw [he], by rw [he]⟩
  · refine ⟨by simp [tryExecute, hr, hg], ?_, by simp [tryExecute, hr, hg]⟩
    simp only [tryExecute, hr, hg]
    intro u hu hid
    rcases double_update_matched u hu hid with ⟨w, hw, hwid, he⟩
    exact ⟨by rw [he], by rw [he]⟩
  · refine ⟨by simp [tryExecute, hr, hg, hs], ?_, by simp [tryExecute, hr, hg, hs]⟩
    simp only [tryExecute, hr, hg, hs]
    intro u hu hid
    rcases double_update_matched u hu hid with ⟨w, hw, hwid, he⟩
    exact ⟨by rw [he], by rw [he]⟩

/-- Witness for C3: with a generator that raises `"boom"`, executing
the claimed top task of `agAB` returns a non-error outcome value with
`success = false`, and the task ends `failed` with the error text in
its result. -/
theorem execute_failure_is_captured_witness :
    (executeTask envFail agAB none).2 =
      { success := false, task_id := some taskB.id, result := none,
        error := some "boom" } ∧
    (executeTask envFail agAB none).1.history = agAB.history :=
  ⟨(execute_failure_is_captured envFail agAB none taskB "boom" (by decide)
      (Or.inr (Or.inl ⟨"", rfl, rfl⟩))).1,
   (execute_failure_is_captured envFail agAB none taskB "boom" (by decide)
      (Or.inr (Or.inl ⟨"", rfl, rfl⟩))).2.2⟩

/-- Claim C4 counterexample: the claim says every task reaching a
terminal status (`completed` or `failed`) gets `completed_at` set at
that transition and exactly one `HistoryEntry` appended.  On the
failure path the code sets neither: after a failed execution the
terminal (`failed`) task still has `completed_at = None` and the
history is still empty. -/
theorem failed_task_has_no_stamp_or_history :
    ((executeTask envFail agAB none).1.task_queue.filter
      (fun u => u.status == Status.failed)).map (fun u => u.completed_at) =
      [none] ∧
    (executeTask envFail agAB none).1.history = [] := by
  decide

/-- Claim C4 (amended): only the `completed` transition performs the
terminal bookkeeping — it stamps `completed_at` with the current
clock and appends exactly one `HistoryEntry`
`(task_id, objective, result, completed_at)`; the `failed` transition
leaves `completed_at` untouched (so it stays unset for a task that
was never completed) and appends nothing to the history. -/
theorem terminal_bookkeeping_only_on_completed
    (env : Env) (a : Agent) (tid? : Option Nat) (t : Task)
    (hsel : selectTask a tid? = some t) :
    (∀ c r, env.retrieve_context t.objective = Except.ok c →
      env.generate_response (promptFor t.objective c) = Except.ok r →
      env.store_interaction (promptFor t.objective c) r = Except.ok () →
      (executeTask env a tid?).1.history = a.history ++
        [{ task_id := t.id, objective := t.objective, result := r,
           completed_at := a.now }] ∧
      ∀ u ∈ (executeTask env a tid?).1.task_queue, u.id = t.id →
        u.status = Status.completed ∧ u.completed_at = some a.now ∧
        u.result = some r) ∧
    (∀ c e, env.retrieve_context t.objective = Except.ok c →
      env.generate_response (promptFor t.objective c) = Except.error e →
      (executeTask env a tid?).1.history = a.history ∧
      ∀ u ∈ (executeTask env a tid?).1.task_queue, u.id = t.id →
        u.status = Status.failed ∧
        ∃ w ∈ a.task_queue, w.id = t.id ∧ u.completed_at = w.completed_at) := by
  simp only [executeTask, hsel]
  constructor
  · intro c r hr hg hs
    refine ⟨by simp [tryExecute, hr, hg, hs], ?_⟩
    simp only [tryExecute, hr, hg, hs]
    intro u hu hid
    rcases double_update_matched u hu hid with ⟨w, hw, hwid, he⟩
    exact ⟨by rw [he], by rw [he], by rw [he]⟩
  · intro c e hr hg
    refine ⟨by simp [tryExecute, hr, hg], ?_⟩
    simp only [tryExecute, hr, hg]
    intro u hu hid
    rcases double_update_matched u hu hid with ⟨w, hw, hwid, he⟩
    exact ⟨by rw [he], w, hw, hwid, by rw [he]⟩

/-- Witness for the amended C4 theorem: the successful execution of
task B in `agAB` stamps `completed_at` and appends exactly one
history entry; the failed execution appends none. -/
theorem terminal_bookkeeping_only_on_completed_witness :
    (executeTask envOk agAB none).1.history =
      agAB.history ++
        [{ task_id := taskB.id, objective := taskB.objective,
           result := "done", completed_at := agAB.now }] ∧
    (executeTask envFail agAB none).1.history = agAB.history :=
  ⟨((terminal_bookkeeping_only_on_completed envOk agAB none taskB
      (by decide)).1 "" "done" rfl rfl rfl).1,
   ((terminal_bookkeeping_only_on_completed envFail agAB none taskB
      (by decide)).2 "" "boom" rfl rfl).1⟩

/-! ## Refinement lemmas for claim C7 -/

theorem buildTasks_map_id : ∀ (ss : List String) (i w : Nat),
    (buildTasks i w ss).map Task.id = List.range' i ss.length := by
  intro ss
  induction ss with
  | nil => intro i w; rfl
  | cons s ss ih => intro i w; simp [buildTasks, List.range', ih]

theorem addSegments_spec : ∀ (ps : List String) (a : Agent) (acc : List Nat),
    (addSegments (a, acc) ps).1.task_queue = a.task_queue ++
      buildTasks a.nextId a.now ((ps.map String.trim).filter (fun s => decide (s ≠ ""))) ∧
    (addSegments (a, acc) ps).2 = acc ++ List.range' a.nextId
      ((ps.map String.trim).filter (fun s => decide (s ≠ ""))).length ∧
    (addSegments (a, acc) ps).1.history = a.history := by
  intro ps
  induction ps with
  | nil => intro a acc; simp [addSegments, buildTasks]
  | cons p ps ih =>
      intro a acc
      by_cases h : p.trim = ""
      · have hstep : addSegments (a, acc) (p :: ps) = addSegments (a, acc) ps := by
          simp [addSegments, h]
        rw [hstep]
        simpa [h] using ih a acc
      · have hstep : addSegments (a, acc) (p :: ps) =
            addSegments ((addTask a p.trim "general" 2).1,
              acc ++ [(addTask a p.trim "general" 2).2]) ps := by
          simp [addSegments, h]
        rw [hstep]
        rcases ih (addTask a p.trim "general" 2).1
          (acc ++ [(addTask a p.trim "general" 2).2]) with ⟨hq, hi, hh⟩
        refine ⟨?_, ?_, ?_⟩
        · rw [hq]
          simp [addTask, buildTasks, h, List.append_assoc]
        · rw [hi]
          simp [addTask, h, List.range', List.append_assoc]
        · rw [hh]
          simp [addTask]

/-- Claim C7: `refine()` with zero history entries returns the empty
list and enqueues nothing; with history present it builds its prompt
from only the last at-most-5 entries, splits the generator's output
on blank-line boundaries (`"\n\n"`), enqueues each stripped non-empty
segment as a new `pending` task at the fixed medium priority 2 with
consecutive fresh ids, returns exactly the ids of those new tasks,
and leaves the history unchanged. -/
theorem refine_enqueues_segments (env : Env) (a : Agent) (response : String) :
    (a.history = [] → refineTasks env a = Except.ok (a, [])) ∧
    (a.history ≠ [] →
      env.generate_response (refinePrompt a.history) = Except.ok response →
      ∃ a2 ids, refineTasks env a = Except.ok (a2, ids) ∧
        a2.task_queue = a.task_queue ++ buildTasks a.nextId a.now
          (((response.splitOn "\n\n").map String.trim).filter
            (fun s => decide (s ≠ ""))) ∧
        ids = List.range' a.nextId
          (((response.splitOn "\n\n").map String.trim).filter
            (fun s => decide (s ≠ ""))).length ∧
        (buildTasks a.nextId a.now
          (((response.splitOn "\n\n").map String.trim).filter
            (fun s => decide (s ≠ "")))).map Task.id = ids ∧
        a2.history = a.history) ∧
    (∀ old h5 : List HistoryEntry, h5.length = 5 →
      refinePrompt (old ++ h5) = refinePrompt h5) := by
  refine ⟨fun h => by simp [refineTasks, h], fun h hg => ?_, fun old h5 hlen => ?_⟩
  · rcases addSegments_spec (response.splitOn "\n\n") a [] with ⟨hq, hi, hh⟩
    refine ⟨(addSegments (a, []) (response.splitOn "\n\n")).1,
      (addSegments (a, []) (response.splitOn "\n\n")).2, ?_, hq, by simpa using hi,
      by rw [buildTasks_map_id]; simpa using hi.symm, hh⟩
    simp [refineTasks, h, hg]
  · have hdrop : lastN 5 (old ++ h5) = h5 := by
      unfold lastN
      have h1 : (old ++ h5).length - 5 = old.length := by
        simp [List.length_append, hlen]
      rw [h1, List.drop_left]
    unfold refinePrompt
    rw [hdrop]
    have hdrop2 : lastN 5 h5 = h5 := by
      unfold lastN
      simp [hlen]
    rw [hdrop2]

/-- Witness for C7: `refine()` on an agent with empty history returns
`[]` and enqueues nothing, and on an agent with one history entry it
enqueues the stripped non-empty segments of the generator output as
fresh priority-2 tasks and returns exactly their ids. -/
theorem refine_enqueues_segments_witness :
    refineTasks envSeg Agent.init = Except.ok (Agent.init, []) ∧
    (∃ a2 ids, refineTasks envSeg agDone = Except.ok (a2, ids) ∧
      a2.task_queue = agDone.task_queue ++ buildTasks agDone.nextId agDone.now
        ((("One\n\n \n\nTwo".splitOn "\n\n").map String.trim).filter
          (fun s => decide (s ≠ ""))) ∧
      ids = List.range' agDone.nextId
        ((("One\n\n \n\nTwo".splitOn "\n\n").map String.trim).filter
          (fun s => decide (s ≠ ""))).length ∧
      a2.history = agDone.history) := by
  refine ⟨(refine_enqueues_segments envSeg Agent.init "x").1 rfl, ?_⟩
  rcases (refine_enqueues_segments envSeg agDone "One\n\n \n\nTwo").2.1
      (by decide) rfl with ⟨a2, ids, hre, hq, hids, hmap, hh⟩
  exact ⟨a2, ids, hre, hq, hids, hh⟩

/-! ## Loop-count lemmas for claim C8 -/

theorem refineTasks_ok_of_gen_ok (env : Env) (G : String)
    (hg : ∀ p, env.generate_response p = Except.ok G) (a : Agent) :
    ∃ q, refineTasks env a = Except.ok q := by
  by_cases h : a.history = []
  · exact ⟨(a, []), by simp [refineTasks, h]⟩
  · refine ⟨addSegments (a, []) (G.splitOn "\n\n"), ?_⟩
    simp [refineTasks, h, hg]

theorem runLoop_counts (env : Env) (G : String)
    (hg : ∀ p, env.generate_response p = Except.ok G) (n k : Nat) :
    ∀ (is : List Nat) (a : Agent) (res : List ExecResult) (tr : List Event),
      countExec (runLoop env n k is a res tr).2.2 = countExec tr + is.length ∧
      countRefine (runLoop env n k is a res tr).2.2 = countRefine tr +
        (is.filter (fun i => decide (0 < i) && decide (i % 2 = 0))).length ∧
      countSleep (runLoop env n k is a res tr).2.2 = countSleep tr +
        (is.filter (fun i => decide (i < n - 1))).length := by
  intro is
  induction is with
  | nil => intro a res tr; simp [runLoop]
  | cons i rest ih =>
      intro a res tr
      simp only [runLoop]
      by_cases hc : i > 0 ∧ i % 2 = 0
      · rw [if_pos hc]
        obtain ⟨q, hq⟩ := refineTasks_ok_of_gen_ok env G hg (executeTask env a none).1
        simp only [hq]
        by_cases hlt : i < n - 1
        · rw [if_pos hlt]
          refine ⟨?_, ?_, ?_⟩
          · rw [(ih _ _ _).1]
            simp [countExec, List.countP_append]
            omega
          · rw [(ih _ _ _).2.1]
            simp [countRefine, List.countP_append, List.filter_cons, hc.1, hc.2]
            omega
          · rw [(ih _ _ _).2.2]
            simp [countSleep, List.countP_append, List.filter_cons, hlt]
            omega
        · rw [if_neg hlt]
          refine ⟨?_, ?_, ?_⟩
          · rw [(ih _ _ _).1]
            simp [countExec, List.countP_append]
            omega
          · rw [(ih _ _ _).2.1]
            simp [countRefine, List.countP_append, List.filter_cons, hc.1, hc.2]
            omega
          · rw [(ih _ _ _).2.2]
            simp [countSleep, List.countP_append, List.filter_cons, hlt]
      · rw [if_neg hc]
        by_cases hlt : i < n - 1
        · rw [if_pos hlt]
          refine ⟨?_, ?_, ?_⟩
          · rw [(ih _ _ _).1]
            simp [countExec, List.countP_append]
            omega
          · rw [(ih _ _ _).2.1]
            simp [countRefine, List.countP_append, List.filter_cons, hc]
          · rw [(ih _ _ _).2.2]
            simp [countSleep, List.countP_append, List.filter_cons, hlt]
            omega
        · rw [if_neg hlt]
          refine ⟨?_, ?_, ?_⟩
          · rw [(ih _ _ _).1]
            simp [countExec, List.countP_append]
            omega
          · rw [(ih _ _ _).2.1]
            simp [countRefine, List.countP_append, List.filter_cons, hc]
          · rw [(ih _ _ _).2.2]
            simp [countSleep, List.countP_append, List.filter_cons, hlt]

theorem length_filter_range_lt (n : Nat) :
    ((List.range n).filter (fun i => decide (i < n - 1))).length = n - 1 := by
  cases n with
  | zero => simp
  | succ m =>
      have hself : (List.range m).filter (fun i => decide (i < m)) = List.range m :=
        List.filter_eq_self.mpr (fun a ha => by simp [List.mem_range.mp ha])
      rw [List.range_succ]
      simp [List.filter_append, hself]

/-- Claim C8 counterexample: the claim says that with `refine_every=2`
a run calls `refine()` after every 2nd iteration, e.g. after iteration
2 — so `run(iterations=2)` should refine once.  The code's cadence is
`i > 0 and i % 2 == 0` over the 0-based index, which is never true for
`iterations=2`: the trace of `run(iterations=2)` contains two
`execute` events and zero `refine` events. -/
theorem run_two_iterations_never_refines :
    countRefine (run envOk agAB 2 2).2.2 = 0 ∧
    countExec (run envOk agAB 2 2).2.2 = 2 := by
  decide

/-- Claim C8 (amended): `run(iterations=n)` invokes `execute()`
exactly `n` times and sleeps `interval` between iterations except
after the last (`n - 1` sleeps); the refinement cadence is hardcoded
(there is no `refine_every` parameter): `refine()` is called within
the iterations whose 0-based index `i` satisfies `i > 0` and
`i % 2 = 0`, i.e. after the 3rd, 5th, 7th, ... calls to `execute()` —
for `iterations = 3` once (after the third execute), and for
`iterations = 2` never. -/
theorem run_counts (env : Env) (a : Agent) (n k : Nat) (G : String)
    (hg : ∀ p, env.generate_response p = Except.ok G)
    (hnr : a.is_running = false) :
    countExec (run env a n k).2.2 = n ∧
    countSleep (run env a n k).2.2 = n - 1 ∧
    countRefine (run env a n k).2.2 =
      ((List.range n).filter
        (fun i => decide (0 < i) && decide (i % 2 = 0))).length := by
  obtain ⟨h1, h2, h3⟩ := runLoop_counts env G hg n k (List.range n)
    { a with is_running := true } [] []
  have hrw : (run env a n k).2.2 = (runLoop env n k (List.range n)
      { a with is_running := true } [] []).2.2 := by
    simp [run, hnr]
  rw [hrw]
  refine ⟨?_, ?_, ?_⟩
  · rw [h1]; simp [countExec]
  · rw [h3]; simp [countSleep, length_filter_range_lt]
  · rw [h2]; simp [countRefine]

/-- Witness for the amended C8 theorem at `iterations = 3`: three
executes, two sleeps, and exactly one refine call. -/
theorem run_counts_witness :
    countExec (run envOk agAB 3 2).2.2 = 3 ∧
    countSleep (run envOk agAB 3 2).2.2 = 2 ∧
    countRefine (run envOk agAB 3 2).2.2 = 1 := by
  obtain ⟨h1, h2, h3⟩ := run_counts envOk agAB 3 2 "done" (fun _ => rfl) rfl
  exact ⟨h1, h2, by rw [h3]; decide⟩

/-! ## Claim C5 — stop() is never consulted by the run loop -/

/-- Claim C5 evaluation: the claim (and the `stop()` docstring)
promise cooperative cancellation — after `stop()` the run loop should
exit at the top of the next iteration.  In the code, `run`'s
`for i in range(iterations)` loop never reads `is_running`, so a
`stop()` interleaved between iterations changes nothing about the
remaining iterations.  Concretely, inside `run(iterations=2)`:
`stop()` after iteration 0 returns `True` and clears the flag, yet
the continuation of the loop (remaining index `[1]`) still records
one further `execute` event instead of zero; likewise a full
`run(iterations=3)` records all three `execute` events regardless of
the flag's value during the run. -/
theorem loop_continues_after_stop :
    (stopAgent aMid).2 = true ∧ aStopped.is_running = false ∧
    countExec (runLoop envOk 2 2 [1] aStopped [] []).2.2 = 1 ∧
    countExec (run envFail agMany 3 2).2.2 = 3 := by
  decide

end TaskCore
